import Mathlib

/-!
# Verification of the apikeys credential scheme

A shallow embedding of the apikeys repository (Go): the argon2id parameter
descriptor parser (algparams.go), the api-key generation, encoding, decoding
and matching operations (argon2id.go, five-field layout), and the earlier
BasicAuth-compatible three-field layout.

Go strings and byte slices are both modelled as `List Nat` with entries below
256 (Go strings are byte sequences; indexing and slicing act on bytes).
The external argon2id KDF (golang.org/x/crypto/argon2) is modelled as an
abstract function parameter, and the random source as explicit draw outcomes.
-/

namespace Apikeys

/-- Bytes of an ASCII Lean string literal, used to transcribe the Go string
literals of the source. -/
def strB (s : String) : List Nat := s.toList.map Char.toNat

/-! ## URL-safe base64 with padding, as Go base64.URLEncoding -/

/-- Character (as a byte) of the URL-safe base64 alphabet at index `i`. -/
def b64Char (i : Nat) : Nat :=
  if i < 26 then 65 + i
  else if i < 52 then 71 + i
  else if i < 62 then i - 4
  else if i = 62 then 45
  else 95

/-- Inverse of the URL-safe base64 alphabet: byte to 6-bit index. -/
def b64Index (c : Nat) : Option Nat :=
  if 65 ≤ c ∧ c ≤ 90 then some (c - 65)
  else if 97 ≤ c ∧ c ≤ 122 then some (c - 71)
  else if 48 ≤ c ∧ c ≤ 57 then some (c + 4)
  else if c = 45 then some 62
  else if c = 95 then some 63
  else none

/-- Go base64.URLEncoding.EncodeToString: three input bytes become four
alphabet bytes, with `=` (61) padding for a short final group. -/
def b64Encode : List Nat → List Nat
  | [] => []
  | [b0] => [b64Char (b0 / 4), b64Char (b0 % 4 * 16), 61, 61]
  | [b0, b1] => [b64Char (b0 / 4), b64Char (b0 % 4 * 16 + b1 / 16),
                 b64Char (b1 % 16 * 4), 61]
  | b0 :: b1 :: b2 :: rest =>
      b64Char (b0 / 4) :: b64Char (b0 % 4 * 16 + b1 / 16) ::
      b64Char (b1 % 16 * 4 + b2 / 64) :: b64Char (b2 % 64) :: b64Encode rest

/-- Go base64.URLEncoding.DecodeString: consumes quanta of four bytes,
accepting `=` padding only at the end of the input. -/
def b64Decode : List Nat → Option (List Nat)
  | [] => some []
  | c0 :: c1 :: c2 :: c3 :: rest =>
      match b64Index c0, b64Index c1 with
      | some i0, some i1 =>
        if c2 = 61 ∧ c3 = 61 ∧ rest = [] then
          some [i0 * 4 + i1 / 16]
        else
          match b64Index c2 with
          | some i2 =>
            if c3 = 61 ∧ rest = [] then
              some [i0 * 4 + i1 / 16, i1 % 16 * 16 + i2 / 4]
            else
              match b64Index c3 with
              | some i3 =>
                (b64Decode rest).map
                  (fun tl => (i0 * 4 + i1 / 16) :: (i1 % 16 * 16 + i2 / 4) ::
                             (i2 % 4 * 64 + i3) :: tl)
              | none => none
          | none => none
      | _, _ => none
  | _ => none

/-! ## Go strings.SplitN and strings.Join for a single-byte separator -/

/-- Splits at the first occurrence of `sep`, if any. -/
def splitFirst (sep : Nat) : List Nat → Option (List Nat × List Nat)
  | [] => none
  | c :: cs =>
      if c = sep then some ([], cs)
      else (splitFirst sep cs).map (fun p => (c :: p.1, p.2))

/-- Go strings.SplitN with a single-byte separator: at most `n` pieces, the
last piece being the unsplit remainder. -/
def splitN (sep : Nat) : Nat → List Nat → List (List Nat)
  | 0, _ => []
  | 1, s => [s]
  | n + 2, s =>
      match splitFirst sep s with
      | none => [s]
      | some (pre, post) => pre :: splitN sep (n + 1) post

/-- Go strings.Join with a single-byte separator. -/
def joinSep (sep : Nat) : List (List Nat) → List Nat
  | [] => []
  | [x] => x
  | x :: xs => x ++ sep :: joinSep sep xs

/-! ## ParseAlg (algparams.go) -/

/-- Go strings.HasPrefix on byte strings. -/
def hasPre : List Nat → List Nat → Bool
  | [], _ => true
  | _ :: _, [] => false
  | p :: ps, c :: cs => p == c && hasPre ps cs

/-- Go strings.HasSuffix on byte strings. -/
def hasSuf (suf s : List Nat) : Bool :=
  s.drop (s.length - suf.length) == suf

/-- Go strconv.ParseUint(s, 10, 32): nonempty decimal digit string whose value
fits in 32 bits. -/
def parseUint32 (s : List Nat) : Option Nat :=
  if s = [] then none
  else if s.all (fun c => 48 ≤ c && c ≤ 57) then
    let v := s.foldl (fun acc c => acc * 10 + (c - 48)) 0
    if v < 4294967296 then some v else none
  else none

/-- Byte string of the Go constant argon2idAlgID. -/
def argon2idAlgID : List Nat := strB "argon2id:"

/-- Byte string of the Go constant memSuffix. -/
def memSuffixB : List Nat := strB "MB"

/-- Go struct Alg with its embedded ParamsArgon2ID flattened; the field
String keeps the exact descriptor text the value was parsed from. -/
structure Alg where
  String : List Nat
  Time : Nat
  Memory : Nat
  KeyLen : Nat
deriving DecidableEq

/-- ParseAlg of algparams.go: checks the argon2id prefix, splits the remainder
into three space-separated fields capped at three pieces, parses and
bounds-checks time, memory (with the MB suffix) and key length. -/
def parseAlg (alg : List Nat) : Except String Alg :=
  if hasPre argon2idAlgID alg then
    match splitN 32 3 (alg.drop argon2idAlgID.length) with
    | [p0, p1, p2] =>
        match parseUint32 p0 with
        | none => .error "bad times component"
        | some t =>
          if t > 5 then .error "time too large, max=5"
          else if t < 1 then .error "time too small, min=1"
          else if hasSuf memSuffixB p1 then
            match parseUint32 (p1.take (p1.length - memSuffixB.length)) with
            | none => .error "bad memory component"
            | some m =>
              if m > 64 then .error "memory too large, max=64"
              else if m < 16 then .error "memory too small, min=16"
              else
                match parseUint32 p2 with
                | none => .error "bad keylength"
                | some k =>
                  if k > 64 then .error "key length too large, max=64"
                  else if k < 16 then .error "key length too small, min=16"
                  else .ok { String := alg, Time := t, Memory := m, KeyLen := k }
          else .error "bad memory component, wrong or missing suffix"
    | _ => .error "bad alg string"
  else .error "missing or unsupported algorithm name"

/-! ## Key operations (argon2id.go, five-field layout) -/

/-- Go struct Key of the five-field layout. The unexported alg field carries
the parsed descriptor; DerivedKey is the persisted derivation output. -/
structure Key where
  alg : Alg
  Salt : List Nat
  DerivedKey : List Nat
  ClientID : List Nat
  DisplayName : List Nat
deriving DecidableEq

/-- Signature of argon2.IDKey (password, salt, time, memory, threads, keyLen).
The argon2 library is external to the repository, so the KDF is kept
abstract and the operations are parameterized over it. -/
def KDF : Type := List Nat → List Nat → Nat → Nat → Nat → Nat → List Nat

/-- Modelled from the spec: the derivation-determinism contract of the
external KDF collaborator, whose output changes whenever the presented
secret changes (same salt and parameters). -/
def KDFCollisionFree (kdf : KDF) : Prop :=
  ∀ salt t m th k p1 p2, p1 ≠ p2 → kdf p1 salt t m th k ≠ kdf p2 salt t m th k

/-- Go KeyOption WithClientID. -/
def withClientID (clientID : List Nat) : Key → Key :=
  fun ak => { ak with ClientID := clientID }

/-- Go KeyOption WithDisplayName. -/
def withDisplayName (name : List Nat) : Key → Key :=
  fun ak => { ak with DisplayName := name }

/-- Key.SetOptions: parses the descriptor, applies the options, and when no
client id was supplied draws one from the nanoid generator (external, so its
outcome is a parameter). The error arm of the nanoid draw reproduces the
source exactly: the Go code assigns the empty id, then returns nil instead
of the error, so the draw failure is swallowed. -/
def setOptions (alg : List Nat) (opts : List (Key → Key))
    (nano : Except String (List Nat)) (ak : Key) : Except String Key :=
  match parseAlg alg with
  | .error e => .error e
  | .ok a =>
    let ak1 := opts.foldl (fun k o => o k) { ak with alg := a }
    if ak1.ClientID.length = 0 then
      match nano with
      | .ok cid => .ok { ak1 with ClientID := cid }
      | .error _ => .ok { ak1 with ClientID := [] }
    else .ok ak1

/-- Key.RecoverKey: re-runs the KDF on the presented password with the stored
salt and parameters (threads fixed at 1, the Go constant argon2Threads). -/
def recoverKey (kdf : KDF) (ak : Key) (password : List Nat) : List Nat :=
  kdf password ak.Salt ak.alg.Time ak.alg.Memory 1 ak.alg.KeyLen

/-- Go bytes.Equal: same length and same bytes. -/
def bytesEqual (a b : List Nat) : Bool := a == b

/-- Modelled from the spec: the comparison-cost of the byte-equality loop
underlying bytes.Equal, which stops at the first differing position; the
design notes of the spec record that the observed comparison is not
constant-time. Counts byte comparisons performed. -/
def bytesEqualSteps : List Nat → List Nat → Nat
  | [], _ => 0
  | _ :: _, [] => 0
  | a :: as, b :: bs => 1 + (if a = b then bytesEqualSteps as bs else 0)

/-- Key.MatchPassword: stores the recomputed candidate into DerivedKey and
compares it against the supplied stored key. Returns the updated receiver
together with the boolean, making the Go pointer-receiver mutation explicit. -/
def matchPassword (kdf : KDF) (ak : Key) (password key : List Nat) :
    Key × Bool :=
  let ak1 := { ak with DerivedKey := recoverKey kdf ak password }
  (ak1, bytesEqual ak1.DerivedKey key)

/-- Errors of Key.generatePasword: a failed read of the random source, or a
short draw for the salt or the password. -/
inductive GenErr where
  | randErr
  | shortSalt
  | shortPassword
deriving DecidableEq

/-- Key.generatePasword: draws the salt and then the password from the random
source (outcomes `d1`, `d2`: none models a read error, a list models a read
of that many bytes), requiring exactly 32 bytes each, then derives the key. -/
def generatePasword (kdf : KDF) (d1 d2 : Option (List Nat)) (ak : Key) :
    Except GenErr (Key × List Nat) :=
  match d1 with
  | none => .error .randErr
  | some salt =>
    if salt.length ≠ 32 then .error .shortSalt
    else
      match d2 with
      | none => .error .randErr
      | some password =>
        if password.length ≠ 32 then .error .shortPassword
        else
          let ak1 := { ak with Salt := salt }
          let dk := kdf password salt ak1.alg.Time ak1.alg.Memory 1 ak1.alg.KeyLen
          .ok ({ ak1 with DerivedKey := dk }, password)

/-- Truncation of the display name to apiKeyNameLen (16) bytes, from
Key.Generate. -/
def truncName (name : List Nat) : List Nat :=
  if name.length > 16 then name.take 16 else name

/-- The five fields joined by Key.Generate, in order: truncated display name,
client id, descriptor text, base64 salt, base64 password. -/
def encodeParts (ak : Key) (password : List Nat) : List (List Nat) :=
  [truncName ak.DisplayName, ak.ClientID, ak.alg.String,
   b64Encode ak.Salt, b64Encode password]

/-- The encoding performed by Key.Generate after the draws: the five fields
joined with the dot separator (46), base64-encoded once more. -/
def encodeArtifact (ak : Key) (password : List Nat) : List Nat :=
  b64Encode (joinSep 46 (encodeParts ak password))

/-- Key.Generate: generatePasword then the artifact encoding; errors
propagate to the caller unchanged. -/
def generate (kdf : KDF) (d1 d2 : Option (List Nat)) (ak : Key) :
    Except GenErr (Key × List Nat) :=
  match generatePasword kdf d1 d2 ak with
  | .error e => .error e
  | .ok (ak2, password) => .ok (ak2, encodeArtifact ak2 password)

/-- Errors of Decode (five-field layout): outer base64 failure, wrong piece
count (with the got and want counts of the Go error message), a descriptor
parse failure, or a base64 failure on the salt or password field. -/
inductive DecodeErr where
  | badB64
  | badParts (got want : Nat)
  | algErr (msg : String)
  | badSaltB64
  | badPasswordB64
deriving DecidableEq

/-- Decode of argon2id.go (five-field layout): outer base64 decode, split on
the dot separator capped at apiKeyNumParts+1 = 6 pieces, requiring exactly 5;
then descriptor parse and base64 decode of salt and password fields. -/
def decode (apikey : List Nat) : Except DecodeErr (Key × List Nat) :=
  match b64Decode apikey with
  | none => .error .badB64
  | some b =>
    match splitN 46 6 b with
    | [p0, p1, p2, p3, p4] =>
        match parseAlg p2 with
        | .error e => .error (.algErr e)
        | .ok a =>
          match b64Decode p3 with
          | none => .error .badSaltB64
          | some salt =>
            match b64Decode p4 with
            | none => .error .badPasswordB64
            | some password =>
              .ok ({ alg := a, Salt := salt, DerivedKey := [],
                     ClientID := p1, DisplayName := p0 }, password)
    | _ => .error (.badParts (splitN 46 6 b).length 5)

/-- Modelled from the spec claim wording for the split step: identical to
`decode` except that the split is capped at 5 pieces, as the claim states,
instead of the 6 of the source. -/
def decodeSpecCap5 (apikey : List Nat) : Except DecodeErr (Key × List Nat) :=
  match b64Decode apikey with
  | none => .error .badB64
  | some b =>
    match splitN 46 5 b with
    | [p0, p1, p2, p3, p4] =>
        match parseAlg p2 with
        | .error e => .error (.algErr e)
        | .ok a =>
          match b64Decode p3 with
          | none => .error .badSaltB64
          | some salt =>
            match b64Decode p4 with
            | none => .error .badPasswordB64
            | some password =>
              .ok ({ alg := a, Salt := salt, DerivedKey := [],
                     ClientID := p1, DisplayName := p0 }, password)
    | _ => .error (.badParts (splitN 46 5 b).length 5)

/-! ## BasicAuth-compatible three-field layout (earlier revision) -/

/-- Go struct Key of the three-field layout (no display name). -/
structure KeyB where
  alg : Alg
  Salt : List Nat
  DerivedKey : List Nat
  ClientID : List Nat
deriving DecidableEq

/-- Result of the three-field Decode: success, an error return, or an
out-of-range slice index (a Go runtime panic). -/
inductive DecBRes where
  | ok (k : KeyB) (password : List Nat)
  | err (msg : String)
  | indexOutOfRange
deriving DecidableEq

/-- Decode of the three-field layout: outer base64, split on the colon (58)
capped at 3 pieces, erroring only when more than 2 pieces result; it then
reads piece index 1 unconditionally, which is out of range (a panic) when the
payload holds no colon; then the inner dot-split capped at 4 pieces requiring
exactly 3, descriptor parse, and base64 of salt and password. -/
def decodeB (apikey : List Nat) : DecBRes :=
  match b64Decode apikey with
  | none => .err "invalid base64"
  | some b =>
    if (splitN 58 3 b).length > 2 then
      .err "outer structure invalid, want a single colon"
    else
      match splitN 58 3 b with
      | [p0, p1] =>
        match splitN 46 4 p1 with
        | [q0, q1, q2] =>
            match parseAlg q0 with
            | .error e => .err e
            | .ok a =>
              match b64Decode q1 with
              | none => .err "bad salt base64"
              | some salt =>
                match b64Decode q2 with
                | none => .err "bad password base64"
                | some password => .ok ⟨a, salt, [], p0⟩ password
        | _ => .err "invalid number of dot separated secret parts"
      | _ => .indexOutOfRange

/-! ## Concrete values used by witnesses and counterexamples -/

/-- Whether a parse outcome is a success. -/
def isOkB : Except String Alg → Bool
  | .ok _ => true
  | .error _ => false

/-- The parse of the Go constant StandardAlg, argon2id:3 64MB 32. -/
def algStd : Alg :=
  { String := strB "argon2id:3 64MB 32", Time := 3, Memory := 64, KeyLen := 32 }

/-- A collision-free stand-in for the abstract KDF: it returns the presented
password, so distinct passwords give distinct outputs. -/
def kdfProj : KDF := fun password _ _ _ _ _ => password

/-- The Go zero value of Key. -/
def keyZero : Key :=
  { alg := { String := [], Time := 0, Memory := 0, KeyLen := 0 },
    Salt := [], DerivedKey := [], ClientID := [], DisplayName := [] }

/-- A concrete key holding a stored derived key, used against MatchPassword. -/
def akC4 : Key :=
  { alg := algStd, Salt := [5, 5], DerivedKey := [9, 9],
    ClientID := strB "id", DisplayName := strB "name" }

/-- A concrete key used to instantiate the match-correctness theorem. -/
def akC2 : Key :=
  { alg := algStd, Salt := [1], DerivedKey := [],
    ClientID := [], DisplayName := [] }

/-- A concrete key with an over-long display name, used to instantiate the
round-trip theorem. -/
def akW : Key :=
  { alg := algStd, Salt := [], DerivedKey := [], ClientID := strB "client01",
    DisplayName := strB "a display name longer than sixteen" }

/-- An artifact whose inner payload holds six dot-separated fields. -/
def artifactC5 : List Nat := b64Encode (strB "n.c.argon2id:3 64MB 32.AA==.BB==.x")

/-! ## Lemmas: base64 -/

theorem b64Index_b64Char : ∀ i, i < 64 → b64Index (b64Char i) = some i := by
  decide

theorem b64Char_ne_dot (i : Nat) : b64Char i ≠ 46 := by
  unfold b64Char; split_ifs <;> omega

theorem b64Char_ne_pad (i : Nat) : b64Char i ≠ 61 := by
  unfold b64Char; split_ifs <;> omega

theorem b64Char_ne_colon (i : Nat) : b64Char i ≠ 58 := by
  unfold b64Char; split_ifs <;> omega

theorem b64Char_lt (i : Nat) (h : i < 64) : b64Char i < 256 := by
  unfold b64Char; split_ifs <;> omega

/-- Every byte of an encoded base64 string is below 256 and is neither the
dot separator nor the colon. -/
theorem b64Encode_mem : ∀ (bs : List Nat), (∀ b ∈ bs, b < 256) →
    ∀ c ∈ b64Encode bs, c < 256 ∧ c ≠ 46 ∧ c ≠ 58
  | [], _ => by intro c hc; simp [b64Encode] at hc
  | [b0], h => by
      intro c hc
      have h0 : b0 < 256 := h b0 (by simp)
      simp only [b64Encode, List.mem_cons, List.not_mem_nil, or_false] at hc
      rcases hc with rfl | rfl | rfl | rfl
      · exact ⟨b64Char_lt _ (by omega), b64Char_ne_dot _, b64Char_ne_colon _⟩
      · exact ⟨b64Char_lt _ (by omega), b64Char_ne_dot _, b64Char_ne_colon _⟩
      · omega
      · omega
  | [b0, b1], h => by
      intro c hc
      have h0 : b0 < 256 := h b0 (by simp)
      have h1 : b1 < 256 := h b1 (by simp)
      simp only [b64Encode, List.mem_cons, List.not_mem_nil, or_false] at hc
      rcases hc with rfl | rfl | rfl | rfl
      · exact ⟨b64Char_lt _ (by omega), b64Char_ne_dot _, b64Char_ne_colon _⟩
      · exact ⟨b64Char_lt _ (by omega), b64Char_ne_dot _, b64Char_ne_colon _⟩
      · exact ⟨b64Char_lt _ (by omega), b64Char_ne_dot _, b64Char_ne_colon _⟩
      · omega
  | b0 :: b1 :: b2 :: rest, h => by
      intro c hc
      have h0 : b0 < 256 := h b0 (by simp)
      have h1 : b1 < 256 := h b1 (by simp)
      have h2 : b2 < 256 := h b2 (by simp)
      have ih := b64Encode_mem rest (fun b hb => h b (by simp [hb]))
      simp only [b64Encode, List.mem_cons] at hc
      rcases hc with rfl | rfl | rfl | rfl | hc
      · exact ⟨b64Char_lt _ (by omega), b64Char_ne_dot _, b64Char_ne_colon _⟩
      · exact ⟨b64Char_lt _ (by omega), b64Char_ne_dot _, b64Char_ne_colon _⟩
      · exact ⟨b64Char_lt _ (by omega), b64Char_ne_dot _, b64Char_ne_colon _⟩
      · exact ⟨b64Char_lt _ (by omega), b64Char_ne_dot _, b64Char_ne_colon _⟩
      · exact ih c hc

/-- Decoding inverts encoding on byte strings. -/
theorem b64_decode_encode : ∀ (bs : List Nat), (∀ b ∈ bs, b < 256) →
    b64Decode (b64Encode bs) = some bs
  | [], _ => rfl
  | [b0], h => by
      have h0 : b0 < 256 := h b0 (by simp)
      have e0 := b64Index_b64Char (b0 / 4) (by omega)
      have e1 := b64Index_b64Char (b0 % 4 * 16) (by omega)
      simp only [b64Encode, b64Decode, e0, e1]
      simp only [and_self, if_true, Option.some.injEq, List.cons.injEq, and_true]
      omega
  | [b0, b1], h => by
      have h0 : b0 < 256 := h b0 (by simp)
      have h1 : b1 < 256 := h b1 (by simp)
      have e0 := b64Index_b64Char (b0 / 4) (by omega)
      have e1 := b64Index_b64Char (b0 % 4 * 16 + b1 / 16) (by omega)
      have e2 := b64Index_b64Char (b1 % 16 * 4) (by omega)
      have hne := b64Char_ne_pad (b1 % 16 * 4)
      simp only [b64Encode, b64Decode, e0, e1, e2, hne, false_and, if_false,
        and_self, if_true, Option.some.injEq, List.cons.injEq, and_true]
      constructor <;> omega
  | b0 :: b1 :: b2 :: rest, h => by
      have h0 : b0 < 256 := h b0 (by simp)
      have h1 : b1 < 256 := h b1 (by simp)
      have h2 : b2 < 256 := h b2 (by simp)
      have ih := b64_decode_encode rest (fun b hb => h b (by simp [hb]))
      have e0 := b64Index_b64Char (b0 / 4) (by omega)
      have e1 := b64Index_b64Char (b0 % 4 * 16 + b1 / 16) (by omega)
      have e2 := b64Index_b64Char (b1 % 16 * 4 + b2 / 64) (by omega)
      have e3 := b64Index_b64Char (b2 % 64) (by omega)
      have hne2 := b64Char_ne_pad (b1 % 16 * 4 + b2 / 64)
      have hne3 := b64Char_ne_pad (b2 % 64)
      simp only [b64Encode, b64Decode, e0, e1, e2, e3, hne2, hne3, false_and,
        if_false, ih, Option.map_some', Option.some.injEq, List.cons.injEq]
      refine ⟨by omega, by omega, by omega, trivial⟩

/-! ## Lemmas: split and join -/

theorem splitFirst_none (sep : Nat) :
    ∀ (s : List Nat), sep ∉ s → splitFirst sep s = none
  | [], _ => rfl
  | c :: cs, h => by
      have hc : c ≠ sep := fun hc => h (by simp [hc])
      have ih := splitFirst_none sep cs (fun hm => h (by simp [hm]))
      simp [splitFirst, hc, ih]

theorem splitFirst_app (sep : Nat) :
    ∀ (pre post : List Nat), sep ∉ pre →
      splitFirst sep (pre ++ sep :: post) = some (pre, post)
  | [], post, _ => by simp [splitFirst]
  | c :: cs, post, h => by
      have hc : c ≠ sep := fun hc => h (by simp [hc])
      have ih := splitFirst_app sep cs post (fun hm => h (by simp [hm]))
      simp [splitFirst, hc, ih]

theorem splitFirst_eq (sep : Nat) :
    ∀ (s pre post : List Nat), splitFirst sep s = some (pre, post) →
      s = pre ++ sep :: post
  | [], pre, post, h => by simp [splitFirst] at h
  | c :: cs, pre, post, h => by
      by_cases hc : c = sep
      · simp [splitFirst, hc] at h
        simp [hc, ← h.1, ← h.2]
      · simp only [splitFirst, hc, if_false] at h
        match hsf : splitFirst sep cs with
        | none => rw [hsf] at h; exact Option.noConfusion h
        | some (pre1, post1) =>
          rw [hsf] at h
          simp only [Option.map_some', Option.some.injEq, Prod.mk.injEq] at h
          have := splitFirst_eq sep cs pre1 post1 hsf
          rw [← h.1, ← h.2, this]
          simp

theorem splitFirst_mem (sep : Nat) :
    ∀ (s : List Nat), sep ∈ s → ∃ pre post, splitFirst sep s = some (pre, post)
  | [], h => absurd h (List.not_mem_nil sep)
  | c :: cs, h => by
      by_cases hc : c = sep
      · exact ⟨[], cs, by simp [splitFirst, hc]⟩
      · have hm : sep ∈ cs := by
          rcases List.mem_cons.mp h with h1 | h1
          · exact absurd h1.symm hc
          · exact h1
        obtain ⟨pre, post, hsf⟩ := splitFirst_mem sep cs hm
        exact ⟨c :: pre, post, by simp [splitFirst, hc, hsf]⟩

/-- splitN with a cap of at least two behaves as one split step. -/
theorem splitN_step (sep n : Nat) (s : List Nat) :
    splitN sep (n + 2) s =
      match splitFirst sep s with
      | none => [s]
      | some (pre, post) => pre :: splitN sep (n + 1) post := rfl

theorem splitN_length_le (sep : Nat) :
    ∀ (n : Nat) (s : List Nat), (splitN sep n s).length ≤ max n 1
  | 0, s => by simp [splitN]
  | 1, s => by simp [splitN]
  | n + 2, s => by
      rw [splitN_step]
      match hsf : splitFirst sep s with
      | none => simp
      | some (pre, post) =>
        have ih := splitN_length_le sep (n + 1) post
        simp only [List.length_cons]
        omega

/-- One splitting step of splitN on a join, for caps of at least two. -/
theorem splitN_cons (sep n : Nat) (pre post : List Nat) (h : sep ∉ pre) :
    splitN sep (n + 2) (pre ++ sep :: post) = pre :: splitN sep (n + 1) post := by
  have hsf := splitFirst_app sep pre post h
  show (match splitFirst sep (pre ++ sep :: post) with
        | none => [pre ++ sep :: post]
        | some (a, b) => a :: splitN sep (n + 1) b) = pre :: splitN sep (n + 1) post
  rw [hsf]

/-- splitN with any positive cap leaves a separator-free string whole. -/
theorem splitN_whole (sep n : Nat) (s : List Nat) (h : sep ∉ s) :
    splitN sep (n + 1) s = [s] := by
  match n with
  | 0 => rfl
  | n + 1 =>
    have hsf := splitFirst_none sep s h
    show (match splitFirst sep s with
          | none => [s]
          | some (a, b) => a :: splitN sep (n + 1) b) = [s]
    rw [hsf]

/-- Splitting the five-field join with the cap of 6 recovers the five fields
when none of them holds the separator. -/
theorem splitN_five (sep : Nat) (p0 p1 p2 p3 p4 : List Nat)
    (h0 : sep ∉ p0) (h1 : sep ∉ p1) (h2 : sep ∉ p2) (h3 : sep ∉ p3)
    (h4 : sep ∉ p4) :
    splitN sep 6 (joinSep sep [p0, p1, p2, p3, p4]) = [p0, p1, p2, p3, p4] := by
  have hj : joinSep sep [p0, p1, p2, p3, p4] =
      p0 ++ sep :: (p1 ++ sep :: (p2 ++ sep :: (p3 ++ sep :: p4))) := by
    simp [joinSep]
  rw [hj]
  have e0 : splitN sep 6 (p0 ++ sep :: (p1 ++ sep :: (p2 ++ sep :: (p3 ++ sep :: p4))))
      = p0 :: splitN sep 5 (p1 ++ sep :: (p2 ++ sep :: (p3 ++ sep :: p4))) :=
    splitN_cons sep 4 p0 _ h0
  have e1 : splitN sep 5 (p1 ++ sep :: (p2 ++ sep :: (p3 ++ sep :: p4)))
      = p1 :: splitN sep 4 (p2 ++ sep :: (p3 ++ sep :: p4)) :=
    splitN_cons sep 3 p1 _ h1
  have e2 : splitN sep 4 (p2 ++ sep :: (p3 ++ sep :: p4))
      = p2 :: splitN sep 3 (p3 ++ sep :: p4) :=
    splitN_cons sep 2 p2 _ h2
  have e3 : splitN sep 3 (p3 ++ sep :: p4) = p3 :: splitN sep 2 p4 :=
    splitN_cons sep 1 p3 _ h3
  have e4 : splitN sep 2 p4 = [p4] := splitN_whole sep 1 p4 h4
  rw [e0, e1, e2, e3, e4]

/-- splitN with a positive cap always yields at least one piece. -/
theorem splitN_ne_nil (sep n : Nat) (s : List Nat) :
    splitN sep (n + 1) s ≠ [] := by
  match n with
  | 0 => simp [splitN]
  | n + 1 =>
    show (match splitFirst sep s with
          | none => [s]
          | some (a, b) => a :: splitN sep (n + 1) b) ≠ []
    match splitFirst sep s with
    | none => simp
    | some (pre, post) => simp

/-- Joining the pieces of a capped split recovers the input. -/
theorem joinSep_splitN (sep : Nat) :
    ∀ (n : Nat) (s : List Nat), joinSep sep (splitN sep (n + 1) s) = s
  | 0, s => by simp [splitN, joinSep]
  | n + 1, s => by
      show joinSep sep (splitN sep (n + 2) s) = s
      match hsf : splitFirst sep s with
      | none =>
        have hstep : splitN sep (n + 2) s = [s] := by
          show (match splitFirst sep s with
                | none => [s]
                | some (a, b) => a :: splitN sep (n + 1) b) = [s]
          rw [hsf]
        rw [hstep]
        rfl
      | some (pre, post) =>
        have hstep : splitN sep (n + 2) s = pre :: splitN sep (n + 1) post := by
          show (match splitFirst sep s with
                | none => [s]
                | some (a, b) => a :: splitN sep (n + 1) b) =
              pre :: splitN sep (n + 1) post
          rw [hsf]
        have ih := joinSep_splitN sep n post
        have hs := splitFirst_eq sep s pre post hsf
        rw [hstep]
        match hsp : splitN sep (n + 1) post with
        | [] => exact absurd hsp (splitN_ne_nil sep n post)
        | q :: qs =>
          rw [hsp] at ih
          have hjc : joinSep sep (pre :: q :: qs) = pre ++ sep :: joinSep sep (q :: qs) := rfl
          rw [hjc, ih, hs]

/-! ## Lemmas: the descriptor parser -/

theorem parseUint32_digits (s : List Nat) (v : Nat) (h : parseUint32 s = some v) :
    s ≠ [] ∧ ∀ c ∈ s, 48 ≤ c ∧ c ≤ 57 := by
  by_cases h1 : s = []
  · simp [parseUint32, h1] at h
  · by_cases h2 : s.all (fun c => 48 ≤ c && c ≤ 57) = true
    · refine ⟨h1, fun c hc => ?_⟩
      have hd := List.all_eq_true.mp h2 c hc
      simp only [Bool.and_eq_true, decide_eq_true_eq] at hd
      exact hd
    · simp [parseUint32, h1, h2] at h

theorem hasPre_exists : ∀ (p s : List Nat), hasPre p s = true → ∃ t, s = p ++ t
  | [], s, _ => ⟨s, rfl⟩
  | p :: ps, [], h => by simp [hasPre] at h
  | p :: ps, c :: cs, h => by
      simp only [hasPre, Bool.and_eq_true, beq_iff_eq] at h
      obtain ⟨t, ht⟩ := hasPre_exists ps cs h.2
      exact ⟨t, by simp [← h.1, ht]⟩

theorem hasSuf_eq (suf s : List Nat) (h : hasSuf suf s = true) :
    s = s.take (s.length - suf.length) ++ suf := by
  have hd : s.drop (s.length - suf.length) = suf := by
    have := h
    unfold hasSuf at this
    exact beq_iff_eq.mp this
  conv_lhs => rw [← List.take_append_drop (s.length - suf.length) s]
  rw [hd]

/-- Facts that hold of every successful parse: the String field is exactly
the input text, every byte of the input is an ASCII byte other than the dot
separator, and the three numeric fields sit inside their domains. -/
theorem parseAlg_ok_facts (s : List Nat) (a : Alg) (h : parseAlg s = .ok a) :
    a.String = s ∧ (∀ c ∈ s, c < 256 ∧ c ≠ 46) ∧
    1 ≤ a.Time ∧ a.Time ≤ 5 ∧ 16 ≤ a.Memory ∧ a.Memory ≤ 64 ∧
    16 ≤ a.KeyLen ∧ a.KeyLen ≤ 64 := by
  unfold parseAlg at h
  split at h
  case isFalse => exact Except.noConfusion h
  case isTrue hpre =>
  split at h
  case h_2 => exact Except.noConfusion h
  case h_1 p0 p1 p2 hsp =>
  split at h
  case h_1 => exact Except.noConfusion h
  case h_2 t hp0 =>
  split at h
  case isTrue => exact Except.noConfusion h
  case isFalse ht1 =>
  split at h
  case isTrue => exact Except.noConfusion h
  case isFalse ht2 =>
  split at h
  case isFalse => exact Except.noConfusion h
  case isTrue hsuf =>
  split at h
  case h_1 => exact Except.noConfusion h
  case h_2 m hp1 =>
  split at h
  case isTrue => exact Except.noConfusion h
  case isFalse hm1 =>
  split at h
  case isTrue => exact Except.noConfusion h
  case isFalse hm2 =>
  split at h
  case h_1 => exact Except.noConfusion h
  case h_2 k hp2 =>
  split at h
  case isTrue => exact Except.noConfusion h
  case isFalse hk1 =>
  split at h
  case isTrue => exact Except.noConfusion h
  case isFalse hk2 =>
  have ha : a = { String := s, Time := t, Memory := m, KeyLen := k } :=
    (Except.ok.injEq _ _ ▸ h).symm
  subst ha
  obtain ⟨tl, htl⟩ := hasPre_exists argon2idAlgID s hpre
  have hdrop : s.drop argon2idAlgID.length = tl := by
    rw [htl, List.drop_left]
  rw [hdrop] at hsp
  have hjoin : joinSep 32 (splitN 32 3 tl) = tl := joinSep_splitN 32 2 tl
  rw [hsp] at hjoin
  have htl2 : tl = p0 ++ 32 :: (p1 ++ 32 :: p2) := by
    rw [← hjoin]; simp [joinSep]
  have hd0 := parseUint32_digits p0 t hp0
  have hd1 := parseUint32_digits (p1.take (p1.length - memSuffixB.length)) m hp1
  have hd2 := parseUint32_digits p2 k hp2
  have hp1s := hasSuf_eq memSuffixB p1 hsuf
  refine ⟨rfl, ?_, by show 1 ≤ t; omega, by show t ≤ 5; omega,
    by show 16 ≤ m; omega, by show m ≤ 64; omega,
    by show 16 ≤ k; omega, by show k ≤ 64; omega⟩
  intro c hc
  rw [htl, htl2] at hc
  have hpreOk : ∀ c ∈ argon2idAlgID, c < 256 ∧ c ≠ 46 := by decide
  have hsufOk : ∀ c ∈ memSuffixB, c < 256 ∧ c ≠ 46 := by decide
  rcases List.mem_append.mp hc with hc | hc
  · exact hpreOk c hc
  rcases List.mem_append.mp hc with hc | hc
  · have := hd0.2 c hc; omega
  rcases List.mem_cons.mp hc with rfl | hc
  · omega
  rcases List.mem_append.mp hc with hc | hc
  · rw [hp1s] at hc
    rcases List.mem_append.mp hc with hc | hc
    · have := hd1.2 c hc; omega
    · exact hsufOk c hc
  rcases List.mem_cons.mp hc with rfl | hc
  · omega
  · have := hd2.2 c hc; omega

/-! ## Claim theorems -/

/-- C6: for every descriptor accepted by ParseAlg, the String field of the
returned value is exactly the input text, and the descriptor Generate embeds
as the third artifact field is that same text, so rendering after parsing is
the identity on accepted descriptors. -/
theorem c6_render_after_parse (s : List Nat) (a : Alg) (h : parseAlg s = .ok a) :
    a.String = s ∧ ∀ (ak : Key) (password : List Nat), ak.alg = a →
      (encodeParts ak password).get? 2 = some s := by
  have hs := (parseAlg_ok_facts s a h).1
  refine ⟨hs, fun ak password hak => ?_⟩
  simp [encodeParts, hak, hs]

/-- Witness for C6 at the standard descriptor. -/
theorem c6_witness :
    algStd.String = strB "argon2id:3 64MB 32" ∧
    ∀ (ak : Key) (password : List Nat), ak.alg = algStd →
      (encodeParts ak password).get? 2 = some (strB "argon2id:3 64MB 32") :=
  c6_render_after_parse (strB "argon2id:3 64MB 32") algStd rfl

/-- C7: ParseAlg keeps out-of-domain values unrepresentable: every accepted
value has time in one to five, memory in sixteen to sixty-four and key
length in sixteen to sixty-four; the four concrete descriptors with time 6,
memory 15, output 15 and the wrong unit suffix are rejected, while the
standard descriptor parses to time 3, memory 64, output length 32. -/
theorem c7_bounds_enforcement :
    (∀ (s : List Nat) (a : Alg), parseAlg s = .ok a →
      1 ≤ a.Time ∧ a.Time ≤ 5 ∧ 16 ≤ a.Memory ∧ a.Memory ≤ 64 ∧
      16 ≤ a.KeyLen ∧ a.KeyLen ≤ 64) ∧
    isOkB (parseAlg (strB "argon2id:6 64MB 32")) = false ∧
    isOkB (parseAlg (strB "argon2id:3 15MB 32")) = false ∧
    isOkB (parseAlg (strB "argon2id:3 64MB 15")) = false ∧
    isOkB (parseAlg (strB "argon2id:3 64M 32")) = false ∧
    parseAlg (strB "argon2id:3 64MB 32") = .ok algStd :=
  ⟨fun s a h => (parseAlg_ok_facts s a h).2.2, rfl, rfl, rfl, rfl, rfl⟩

/-- Witness for C7 at the standard descriptor. -/
theorem c7_witness :
    1 ≤ algStd.Time ∧ algStd.Time ≤ 5 ∧ 16 ≤ algStd.Memory ∧
    algStd.Memory ≤ 64 ∧ 16 ≤ algStd.KeyLen ∧ algStd.KeyLen ≤ 64 :=
  c7_bounds_enforcement.1 (strB "argon2id:3 64MB 32") algStd rfl

/-- C2: with the KDF satisfying the collision-freeness stated by the spec for
the derivation function, MatchPassword accepts the secret it was derived
from and rejects every other secret. -/
theorem c2_match_correctness (kdf : KDF) (hkdf : KDFCollisionFree kdf)
    (ak : Key) (secret secret2 : List Nat) (hne : secret2 ≠ secret) :
    (matchPassword kdf ak secret (recoverKey kdf ak secret)).2 = true ∧
    (matchPassword kdf ak secret2 (recoverKey kdf ak secret)).2 = false := by
  constructor
  · show bytesEqual (recoverKey kdf ak secret) (recoverKey kdf ak secret) = true
    simp [bytesEqual]
  · show bytesEqual (recoverKey kdf ak secret2) (recoverKey kdf ak secret) = false
    have hd : recoverKey kdf ak secret2 ≠ recoverKey kdf ak secret :=
      hkdf ak.Salt ak.alg.Time ak.alg.Memory 1 ak.alg.KeyLen secret2 secret hne
    exact beq_eq_false_iff_ne.mpr hd

/-- Witness for C2 with a collision-free concrete KDF. -/
theorem c2_witness :
    (matchPassword kdfProj akC2 [1, 2] (recoverKey kdfProj akC2 [1, 2])).2 = true ∧
    (matchPassword kdfProj akC2 [9] (recoverKey kdfProj akC2 [1, 2])).2 = false :=
  c2_match_correctness kdfProj (fun _ _ _ _ _ _ _ hne hc => hne hc)
    akC2 [1, 2] [9] (by decide)

/-- C3: the comparison MatchPassword performs is the short-circuiting byte
equality of bytes.Equal, not a constant-time one: two candidate keys of the
same length, both unequal to the stored key, cost a different number of byte
comparisons depending on where the first difference sits. -/
theorem c3_not_constant_time :
    ([1, 0, 0, 0] : List Nat).length = ([0, 0, 0, 1] : List Nat).length ∧
    bytesEqual [0, 0, 0, 0] [1, 0, 0, 0] = false ∧
    bytesEqual [0, 0, 0, 0] [0, 0, 0, 1] = false ∧
    bytesEqualSteps [0, 0, 0, 0] [1, 0, 0, 0] = 1 ∧
    bytesEqualSteps [0, 0, 0, 0] [0, 0, 0, 1] = 4 := by
  decide

/-- C4 counterexample: MatchPassword overwrites the stored DerivedKey field
with the recomputed candidate, so the field changes on a failed match. -/
theorem c4_counterexample :
    (matchPassword kdfProj akC4 [1, 2] [9, 9]).1.DerivedKey ≠ akC4.DerivedKey := by
  decide

/-- C4 amended: MatchPassword stores the recomputed candidate into the
DerivedKey field of the receiver; every other field (alg, Salt, ClientID,
DisplayName) is left unchanged, and the boolean is the comparison of the
candidate against the supplied stored key. -/
theorem c4_frame (kdf : KDF) (ak : Key) (password key : List Nat) :
    (matchPassword kdf ak password key).1.alg = ak.alg ∧
    (matchPassword kdf ak password key).1.Salt = ak.Salt ∧
    (matchPassword kdf ak password key).1.ClientID = ak.ClientID ∧
    (matchPassword kdf ak password key).1.DisplayName = ak.DisplayName ∧
    (matchPassword kdf ak password key).1.DerivedKey = recoverKey kdf ak password ∧
    (matchPassword kdf ak password key).2 =
      bytesEqual (recoverKey kdf ak password) key :=
  ⟨rfl, rfl, rfl, rfl, rfl, rfl⟩

/-- C9: evaluating SetOptions with a valid descriptor, no options and a
failing nanoid draw returns success (a nil error) with an empty ClientID:
the source swallows the generator failure by returning nil instead of the
error. -/
theorem c9_swallowed_idgen_failure :
    setOptions (strB "argon2id:3 64MB 32") [] (.error "entropy read failure") keyZero =
      .ok { alg := algStd, Salt := [], DerivedKey := [],
            ClientID := [], DisplayName := [] } := rfl

/-- C8: a failed or short draw of the random source for either the salt or
the password makes Generate fail with the corresponding error (a read error
propagates, a short draw is the insufficient-entropy error), and on success
the salt and the password are each exactly 32 bytes. -/
theorem c8_entropy (kdf : KDF) (ak : Key) (d1 d2 : Option (List Nat)) :
    (d1 = none → generate kdf d1 d2 ak = .error .randErr) ∧
    (∀ bs, d1 = some bs → bs.length ≠ 32 →
      generate kdf d1 d2 ak = .error .shortSalt) ∧
    (∀ bs, d1 = some bs → bs.length = 32 → d2 = none →
      generate kdf d1 d2 ak = .error .randErr) ∧
    (∀ bs cs, d1 = some bs → bs.length = 32 → d2 = some cs → cs.length ≠ 32 →
      generate kdf d1 d2 ak = .error .shortPassword) ∧
    (∀ bs cs, d1 = some bs → bs.length = 32 → d2 = some cs → cs.length = 32 →
      ∃ ak2 : Key,
        generate kdf d1 d2 ak = .ok (ak2, encodeArtifact ak2 cs) ∧
        ak2.Salt = bs ∧ ak2.Salt.length = 32 ∧ cs.length = 32 ∧
        ak2.DerivedKey = kdf cs bs ak.alg.Time ak.alg.Memory 1 ak.alg.KeyLen) := by
  refine ⟨?_, ?_, ?_, ?_, ?_⟩
  · rintro rfl; rfl
  · rintro bs rfl hlen
    simp [generate, generatePasword, hlen]
  · rintro bs rfl hlen rfl
    simp [generate, generatePasword, hlen]
  · rintro bs cs rfl hlen rfl hlen2
    simp [generate, generatePasword, hlen, hlen2]
  · rintro bs cs rfl hlen rfl hlen2
    refine ⟨{ ak with Salt := bs, DerivedKey := kdf cs bs ak.alg.Time ak.alg.Memory 1 ak.alg.KeyLen }, ?_, rfl, hlen, hlen2, rfl⟩
    simp [generate, generatePasword, hlen, hlen2]

/-- Witness for C8: a 31-byte salt draw aborts Generate, and two full 32-byte
draws succeed. -/
theorem c8_witness :
    generate kdfProj (some (List.replicate 31 0)) none keyZero = .error .shortSalt ∧
    ∃ ak2 : Key,
      generate kdfProj (some (List.replicate 32 7)) (some (List.replicate 32 9)) keyZero =
        .ok (ak2, encodeArtifact ak2 (List.replicate 32 9)) ∧
      ak2.Salt = List.replicate 32 7 ∧ ak2.Salt.length = 32 ∧
      (List.replicate 32 9).length = 32 ∧
      ak2.DerivedKey = kdfProj (List.replicate 32 9) (List.replicate 32 7)
        keyZero.alg.Time keyZero.alg.Memory 1 keyZero.alg.KeyLen :=
  ⟨(c8_entropy kdfProj keyZero (some (List.replicate 31 0)) none).2.1
      (List.replicate 31 0) rfl (by decide),
   (c8_entropy kdfProj keyZero (some (List.replicate 32 7))
      (some (List.replicate 32 9))).2.2.2.2
      (List.replicate 32 7) (List.replicate 32 9) rfl (by decide) rfl (by decide)⟩

/-- C10: in the three-field BasicAuth-compatible layout, whenever the outer
base64 decode succeeds and the payload holds no colon, Decode reads the
split piece at index 1 out of range (a runtime panic) instead of returning
an error; when the payload holds a colon that index is in range and no panic
occurs. -/
theorem c10_decodeB_no_colon (apikey b : List Nat)
    (hb : b64Decode apikey = some b) :
    (58 ∉ b → decodeB apikey = .indexOutOfRange) ∧
    (58 ∈ b → decodeB apikey ≠ .indexOutOfRange) := by
  constructor
  · intro hnc
    have hsp : splitN 58 3 b = [b] := splitN_whole 58 2 b hnc
    simp [decodeB, hb, hsp]
  · intro hc
    obtain ⟨pre, post, hsf⟩ := splitFirst_mem 58 b hc
    have hsp : splitN 58 3 b = pre :: splitN 58 2 post := by
      show (match splitFirst 58 b with
            | none => [b]
            | some (a, c) => a :: splitN 58 2 c) = pre :: splitN 58 2 post
      rw [hsf]
    match hsp2 : splitFirst 58 post with
    | none =>
      have h2 : splitN 58 2 post = [post] := by
        show (match splitFirst 58 post with
              | none => [post]
              | some (a, c) => a :: splitN 58 1 c) = [post]
        rw [hsp2]
      rw [h2] at hsp
      simp only [decodeB, hb, hsp]
      simp only [List.length_cons, List.length_nil]
      norm_num
      split <;> (try split) <;> (try split) <;> (try split) <;> simp
    | some (pre1, post1) =>
      have h2 : splitN 58 2 post = [pre1, post1] := by
        show (match splitFirst 58 post with
              | none => [post]
              | some (a, c) => a :: splitN 58 1 c) = [pre1, post1]
        rw [hsp2]
        rfl
      rw [h2] at hsp
      simp [decodeB, hb, hsp]

/-- Witness for C10: a payload with no colon reaches the out-of-range read,
and one with a colon does not. -/
theorem c10_witness :
    decodeB (b64Encode (strB "abc")) = .indexOutOfRange ∧
    decodeB (b64Encode (strB "a:b")) ≠ .indexOutOfRange :=
  ⟨(c10_decodeB_no_colon (b64Encode (strB "abc")) (strB "abc") (by decide)).1
      (by decide),
   (c10_decodeB_no_colon (b64Encode (strB "a:b")) (strB "a:b") (by decide)).2
      (by decide)⟩

/-- C5 counterexample: a payload of six dot-separated fields, whose cap-5
split would have exactly 5 pieces, makes Decode report the malformed-artifact
error with got count 6 — so the split of the source is not capped at 5
pieces, and the spec-modelled cap-5 decode behaves differently there. -/
theorem c5_counterexample :
    (splitN 46 5 (strB "n.c.argon2id:3 64MB 32.AA==.BB==.x")).length = 5 ∧
    decode artifactC5 = .error (.badParts 6 5) ∧
    decodeSpecCap5 artifactC5 = .error .badPasswordB64 :=
  ⟨rfl, rfl, rfl⟩

/-- C5 amended: Decode splits the decoded payload with the cap at 6 pieces
(one more than the wanted count, so extra separator content surfaces as a
sixth piece), and returns the malformed-artifact error, reporting the got
count and want count 5, exactly when the resulting piece count is not 5. -/
theorem c5_amended (apikey b : List Nat) (hb : b64Decode apikey = some b) :
    (splitN 46 6 b).length ≤ 6 ∧
    ((splitN 46 6 b).length ≠ 5 →
      decode apikey = .error (.badParts (splitN 46 6 b).length 5)) ∧
    ((splitN 46 6 b).length = 5 →
      ∀ g w, decode apikey ≠ .error (.badParts g w)) := by
  refine ⟨by simpa using splitN_length_le 46 6 b, ?_, ?_⟩
  · intro hne
    simp only [decode, hb]
    rcases hsp : splitN 46 6 b with _ | ⟨p0, _ | ⟨p1, _ | ⟨p2, _ | ⟨p3, _ | ⟨p4, _ | ⟨p5, rest⟩⟩⟩⟩⟩⟩
    · simp
    · simp
    · simp
    · simp
    · simp
    · rw [hsp] at hne; simp at hne
    · simp
  · intro h5 g w
    simp only [decode, hb]
    rcases hsp : splitN 46 6 b with _ | ⟨p0, _ | ⟨p1, _ | ⟨p2, _ | ⟨p3, _ | ⟨p4, _ | ⟨p5, rest⟩⟩⟩⟩⟩⟩
    · rw [hsp] at h5; simp at h5
    · rw [hsp] at h5; simp at h5
    · rw [hsp] at h5; simp at h5
    · rw [hsp] at h5; simp at h5
    · rw [hsp] at h5; simp at h5
    · split <;> (try split) <;> (try split) <;> (try split) <;> simp
    · rw [hsp] at h5
      simp only [List.length_cons] at h5
      omega

/-- Witness for C5 amended: a three-field payload triggers the error with
got count 3, and a five-field payload never reports a piece-count error. -/
theorem c5_amended_witness :
    (splitN 46 6 (strB "a.b.c")).length ≤ 6 ∧
    ((splitN 46 6 (strB "a.b.c")).length ≠ 5 →
      decode (b64Encode (strB "a.b.c")) =
        .error (.badParts (splitN 46 6 (strB "a.b.c")).length 5)) ∧
    ((splitN 46 6 (strB "a.b.c")).length = 5 →
      ∀ g w, decode (b64Encode (strB "a.b.c")) ≠ .error (.badParts g w)) :=
  c5_amended (b64Encode (strB "a.b.c")) (strB "a.b.c") (by decide)

/-- C1: for every key whose client id and truncated display name are free of
the dot separator and whose descriptor is one accepted by ParseAlg, Generate
with full 32-byte draws succeeds, and Decode of the produced artifact
returns the client id, the display name truncated to at most 16 bytes, the
descriptor parsed back from its exact text, and the salt and the secret
unchanged. -/
theorem c1_round_trip (kdf : KDF) (ak : Key) (a : Alg) (salt password : List Nat)
    (hsl : salt.length = 32) (hpl : password.length = 32)
    (hsb : ∀ b ∈ salt, b < 256) (hpb : ∀ b ∈ password, b < 256)
    (hcb : ∀ b ∈ ak.ClientID, b < 256) (hdb : ∀ b ∈ ak.DisplayName, b < 256)
    (hcd : 46 ∉ ak.ClientID) (hnd : 46 ∉ truncName ak.DisplayName)
    (ha : parseAlg ak.alg.String = .ok a) :
    ∃ ak2 : Key,
      generate kdf (some salt) (some password) ak =
        .ok (ak2, encodeArtifact ak2 password) ∧
      decode (encodeArtifact ak2 password) =
        .ok ({ alg := a, Salt := salt, DerivedKey := [],
               ClientID := ak.ClientID, DisplayName := truncName ak.DisplayName },
             password) ∧
      a.String = ak.alg.String := by
  obtain ⟨haS, hchars, _⟩ := parseAlg_ok_facts _ a ha
  refine ⟨{ ak with Salt := salt, DerivedKey := kdf password salt ak.alg.Time ak.alg.Memory 1 ak.alg.KeyLen }, ?_, ?_, haS⟩
  · simp [generate, generatePasword, hsl, hpl]
  · have hndb : ∀ c ∈ truncName ak.DisplayName, c < 256 := by
      intro c hc
      apply hdb
      unfold truncName at hc
      split at hc
      · exact List.take_subset _ _ hc
      · exact hc
    have hsaltB := b64Encode_mem salt hsb
    have hpwB := b64Encode_mem password hpb
    have hsdot : 46 ∉ ak.alg.String := fun hm => (hchars 46 hm).2 rfl
    have hbs : 46 ∉ b64Encode salt := fun hm => (hsaltB 46 hm).2.1 rfl
    have hbp : 46 ∉ b64Encode password := fun hm => (hpwB 46 hm).2.1 rfl
    have hparts : encodeParts { ak with Salt := salt, DerivedKey := kdf password salt ak.alg.Time ak.alg.Memory 1 ak.alg.KeyLen } password = [truncName ak.DisplayName, ak.ClientID, ak.alg.String, b64Encode salt, b64Encode password] := rfl
    have hjoin : joinSep 46 [truncName ak.DisplayName, ak.ClientID, ak.alg.String, b64Encode salt, b64Encode password] = truncName ak.DisplayName ++ 46 :: (ak.ClientID ++ 46 :: (ak.alg.String ++ 46 :: (b64Encode salt ++ 46 :: b64Encode password))) := by
      simp [joinSep]
    have hpayload : ∀ c ∈ joinSep 46 [truncName ak.DisplayName, ak.ClientID, ak.alg.String, b64Encode salt, b64Encode password], c < 256 := by
      intro c hc
      rw [hjoin] at hc
      rcases List.mem_append.mp hc with hc | hc
      · exact hndb c hc
      rcases List.mem_cons.mp hc with rfl | hc
      · omega
      rcases List.mem_append.mp hc with hc | hc
      · exact hcb c hc
      rcases List.mem_cons.mp hc with rfl | hc
      · omega
      rcases List.mem_append.mp hc with hc | hc
      · exact (hchars c hc).1
      rcases List.mem_cons.mp hc with rfl | hc
      · omega
      rcases List.mem_append.mp hc with hc | hc
      · exact (hsaltB c hc).1
      rcases List.mem_cons.mp hc with rfl | hc
      · omega
      · exact (hpwB c hc).1
    have hdec := b64_decode_encode _ hpayload
    have hsplit := splitN_five 46 (truncName ak.DisplayName) ak.ClientID
      ak.alg.String (b64Encode salt) (b64Encode password) hnd hcd hsdot hbs hbp
    have harts : encodeArtifact { ak with Salt := salt, DerivedKey := kdf password salt ak.alg.Time ak.alg.Memory 1 ak.alg.KeyLen } password = b64Encode (joinSep 46 [truncName ak.DisplayName, ak.ClientID, ak.alg.String, b64Encode salt, b64Encode password]) := by
      rw [encodeArtifact, hparts]
    rw [harts]
    simp only [decode, hdec, hsplit, ha, b64_decode_encode salt hsb,
      b64_decode_encode password hpb]

/-- Witness for C1: a concrete key with an over-long display name round-trips
through Generate and Decode. -/
theorem c1_witness :
    ∃ ak2 : Key,
      generate kdfProj (some (List.replicate 32 11)) (some (List.replicate 32 13)) akW =
        .ok (ak2, encodeArtifact ak2 (List.replicate 32 13)) ∧
      decode (encodeArtifact ak2 (List.replicate 32 13)) =
        .ok ({ alg := algStd, Salt := List.replicate 32 11, DerivedKey := [],
               ClientID := akW.ClientID, DisplayName := truncName akW.DisplayName },
             List.replicate 32 13) ∧
      algStd.String = akW.alg.String :=
  c1_round_trip kdfProj akW algStd (List.replicate 32 11) (List.replicate 32 13)
    (by decide) (by decide) (by decide) (by decide) (by decide) (by decide)
    (by decide) (by decide) rfl

end Apikeys
